import Mathlib

/-!
Verification of the incremental file-ingestion routine
`read_gcs_files_to_dataframes_aserta` from `src/cloudrun/api_plantilla/Tools.py`.

Shallow embedding. The object-storage collaborators (blob listing, per-blob
download, per-blob parse by the pandas reader selected by `file_type`, and the
ledger object `file_already_read.txt`) are modelled by an explicit `Store`
value: the listing result is a list of `Blob`s, each carrying the outcome of
`download_as_bytes` (`downloadOk`) and the outcome of parsing its bytes with
the run's reader and kwargs (`parsed`; `none` means the parse raises).
Boolean flags on the `Store` model the collaborator calls that can raise
(listing, ledger read, ledger write).

Python string operations used by the routine (`str.split`, `str.strip`,
`str.join`, `str.startswith`, `str.endswith`) are defined here over the
character data of Lean `String`s, mirroring Python's sequence-of-code-points
semantics; `strip` uses CPython's full Unicode whitespace table, see
`pyIsSpace`.
-/

/-! Part: Python string primitives -/

/-- Auxiliary for `splitOnChar`: returns the first piece and the later pieces. -/
def splitAux (sep : Char) : List Char → List Char × List (List Char)
  | [] => ([], [])
  | c :: cs =>
    let r := splitAux sep cs
    if c = sep then ([], r.1 :: r.2)
    else (c :: r.1, r.2)

/-- Python `s.split(sep)` for a one-character separator: the list of pieces
between occurrences of `sep` (always at least one piece). -/
def splitOnChar (sep : Char) (l : List Char) : List (List Char) :=
  (splitAux sep l).1 :: (splitAux sep l).2

/-- Python `sep.join(pieces)` for a one-character separator. -/
def joinWithChar (sep : Char) : List (List Char) → List Char
  | [] => []
  | [p] => p
  | p :: q :: ps => p ++ sep :: joinWithChar sep (q :: ps)

/-- The whitespace class of Python `str.strip()` (CPython's Unicode
whitespace table): `\t \n \x0b \x0c \r`, `\x1c`-`\x1f`, space, `\x85`,
`\xa0`, `\u1680`, `\u2000`-`\u200a`, `\u2028`, `\u2029`, `\u202f`,
`\u205f`, `\u3000`. -/
def pyIsSpace (c : Char) : Bool :=
  decide ((0x09 ≤ c.toNat ∧ c.toNat ≤ 0x0D) ∨ (0x1C ≤ c.toNat ∧ c.toNat ≤ 0x1F) ∨
    c.toNat = 0x20 ∨ c.toNat = 0x85 ∨ c.toNat = 0xA0 ∨ c.toNat = 0x1680 ∨
    (0x2000 ≤ c.toNat ∧ c.toNat ≤ 0x200A) ∨ c.toNat = 0x2028 ∨ c.toNat = 0x2029 ∨
    c.toNat = 0x202F ∨ c.toNat = 0x205F ∨ c.toNat = 0x3000)

/-- Python `s.strip()`: drop leading and trailing whitespace characters. -/
def stripList (l : List Char) : List Char :=
  (((l.dropWhile pyIsSpace).reverse.dropWhile pyIsSpace).reverse)

/-- Python `s.split(sep)` at `String` level. -/
def pySplit (sep : Char) (s : String) : List String :=
  (splitOnChar sep s.data).map String.mk

/-- Python `s.strip()` at `String` level. -/
def pyStrip (s : String) : String := String.mk (stripList s.data)

/-- Python `sep.join(xs)` at `String` level. -/
def pyJoin (sep : Char) (xs : List String) : String :=
  String.mk (joinWithChar sep (xs.map String.data))

/-- Python `s.startswith(p)`. -/
def pyStartsWith (p s : String) : Bool := p.data.isPrefixOf s.data

/-- Python `s.endswith(p)`. -/
def pyEndsWith (p s : String) : Bool := p.data.isSuffixOf s.data

/-! Part: Data model -/

/-- A row of a parsed table (abstract row payload). -/
abbrev Row := Nat

/-- The tabular result: each row carries the value of the added `file` column. -/
abbrev DataFrame := List (Row × String)

/-- One blob returned by `bucket.list_blobs`: its full path name, whether
`download_as_bytes` succeeds, and the outcome of parsing its bytes with the
reader selected by the run's `file_type` and kwargs (`none` = the parse
raises, `some rows` = the parsed table). -/
structure Blob where
  name : String
  downloadOk : Bool
  parsed : Option (List Row)
deriving DecidableEq

/-- The state/behaviour of the object store and its collaborators for a run:
the listing result under the prefix, the ledger object's content (`none` =
the object does not exist), and flags for the collaborator calls that can
raise. -/
structure Store where
  listed : List Blob
  listFails : Bool
  ledger : Option String
  ledgerReadFails : Bool
  ledgerWriteFails : Bool
deriving DecidableEq

/-- The observable outcome of a run: the returned dataframe, the final store
(the ledger object possibly rewritten), the final in-memory
`files_to_update_log` list, and whether the ledger write was attempted. -/
structure RunResult where
  df : DataFrame
  store : Store
  files_to_update_log : List String
  ledgerWriteAttempted : Bool
deriving DecidableEq

/-! Part: The embedded routine -/

/-- The ledger object name, `file_already_read.txt` (Tools.py line 227). -/
def log_filename : String := "file_already_read.txt"

/-- Python `name.split("/")[-1]`: the trailing path segment. -/
def trailingName (s : String) : String := (pySplit '/' s).getLastD ""

/-- The ledger parser (Tools.py lines 248-251): split the ledger text on
newlines, strip each line, drop empty lines. -/
def parseLedger (content : String) : List String :=
  ((pySplit '\n' content).map pyStrip).filter (fun f => f ≠ "")

/-- The `files_already_read` list after step 2 (Tools.py lines 238-258): the parsed
ledger when `read_log_file` is set and the ledger object exists, else empty. -/
def files_already_read_of (store : Store) (read_log_file : Bool) : List String :=
  if read_log_file then
    match store.ledger with
    | some content => parseLedger content
    | none => []
  else []

/-- The candidate filter (Tools.py lines 263-271): name ends with `file_type`,
trailing segment starts with `file_prefix` when given (`filePfx` here), and
trailing segment is not the ledger file name. -/
def candidate_files (listed : List Blob) (file_type : String) (filePfx : Option String) :
    List Blob :=
  listed.filter fun blob =>
    pyEndsWith file_type blob.name
    && (match filePfx with
        | none => true
        | some p => pyStartsWith p (trailingName blob.name))
    && trailingName blob.name != log_filename

/-- Step 4 partition (Tools.py lines 281-287): keep the candidates whose
trailing name is not recorded in the ledger (when `read_log_file`). -/
def files_to_read (cands : List Blob) (already : List String) (read_log_file : Bool) :
    List Blob :=
  cands.filter fun blob => !(read_log_file && already.contains (trailingName blob.name))

/-- The reader dispatch of step 5 (Tools.py lines 303-309): only `.xlsx` and
`.csv` are supported. -/
def supportedType (file_type : String) : Bool :=
  file_type == ".xlsx" || file_type == ".csv"

/-- One iteration of the step-5 loop (Tools.py lines 298-316), acting on the
pair (accumulated dataframes, `files_to_update_log`): a download failure or a
parse failure removes the file's trailing name from the pending list; an
unsupported `file_type` skips the file leaving the pending list unchanged; a
successful parse appends the rows tagged with the `file` column. -/
def processOne (file_type : String)
    (acc : List (List (Row × String)) × List String) (blob : Blob) :
    List (List (Row × String)) × List String :=
  let file_name := trailingName blob.name
  if blob.downloadOk then
    if supportedType file_type then
      match blob.parsed with
      | some df => (acc.1 ++ [df.map fun r => (r, file_name)], acc.2)
      | none => (acc.1, acc.2.erase file_name)
    else (acc.1, acc.2)
  else (acc.1, acc.2.erase file_name)

/-- Steps 3-6 of the routine (Tools.py lines 260-353), after the two setup
collaborator calls (ledger read, listing) have succeeded. -/
def runCore (σ : Store) (file_type : String) (filePfx : Option String)
    (read_log_file : Bool) : RunResult :=
  let files_already_read := files_already_read_of σ read_log_file
  let cands := candidate_files σ.listed file_type filePfx
  if cands = [] then ⟨[], σ, [], false⟩
  else
    let to_read := files_to_read cands files_already_read read_log_file
    if to_read = [] then ⟨[], σ, [], false⟩
    else
      let pend0 := to_read.map fun b => trailingName b.name
      let res := to_read.foldl (processOne file_type) ([], pend0)
      if res.1 = [] then ⟨[], σ, res.2, false⟩
      else if read_log_file = true ∧ res.2 ≠ [] then
        if σ.ledgerWriteFails then ⟨res.1.flatten, σ, res.2, true⟩
        else
          ⟨res.1.flatten,
           { σ with ledger := some (pyJoin '\n' (files_already_read ++ res.2)) },
           res.2, true⟩
      else ⟨res.1.flatten, σ, res.2, false⟩

/-- The body of the outer `try` (Tools.py lines 232-353): the ledger read
(step 2) and the listing (step 3) are the collaborator calls that can raise
out of the per-file loop; they precede everything else, so they are hoisted
to the front as the two `error` cases. -/
def runBody (σ : Store) (file_type : String) (filePfx : Option String)
    (read_log_file : Bool) : Except String RunResult :=
  if read_log_file && σ.ledgerReadFails then .error "ledger read raised"
  else if σ.listFails then .error "listing raised"
  else .ok (runCore σ file_type filePfx read_log_file)

/-- The routine `read_gcs_files_to_dataframes_aserta` (Tools.py lines 197-357): the outer
`except` (lines 355-357) catches any setup failure and degrades to an empty
dataframe, leaving the store untouched. -/
def read_gcs_files_to_dataframes_aserta (σ : Store) (file_type : String)
    (filePfx : Option String) (read_log_file : Bool) : RunResult :=
  match runBody σ file_type filePfx read_log_file with
  | .ok r => r
  | .error _ => ⟨[], σ, [], false⟩

/-! Part: Derived observables -/

/-- The candidate set of a run. -/
def candidatesOf (σ : Store) (file_type : String) (filePfx : Option String) : List Blob :=
  candidate_files σ.listed file_type filePfx

/-- The `files_to_read` list of a run with `read_log_file` as given. -/
def toReadOf (σ : Store) (file_type : String) (filePfx : Option String)
    (read_log_file : Bool) : List Blob :=
  files_to_read (candidatesOf σ file_type filePfx) (files_already_read_of σ read_log_file)
    read_log_file

/-- A blob's bytes download and parse successfully under the run's reader. -/
def parsedOk (file_type : String) (b : Blob) : Bool :=
  b.downloadOk && supportedType file_type && b.parsed.isSome

/-- The tagged dataframe a blob contributes in step 5, if any. -/
def taggedOf (file_type : String) (b : Blob) : Option (List (Row × String)) :=
  if b.downloadOk then
    if supportedType file_type then
      b.parsed.map fun df => df.map fun r => (r, trailingName b.name)
    else none
  else none

/-- The names recorded in a store's ledger object, as the routine reads them. -/
def ledgerNamesOf (σ : Store) : List String :=
  match σ.ledger with
  | some content => parseLedger content
  | none => []

/-- A file name that survives the ledger's write/read round trip unchanged:
nonempty, strip-invariant, and newline-free. -/
def cleanName (s : String) : Prop :=
  pyStrip s = s ∧ s ≠ "" ∧ '\n' ∉ s.data

instance (s : String) : Decidable (cleanName s) := by
  unfold cleanName; infer_instance

/-! Part: Helper lemmas: the split/strip/join primitives -/

theorem splitAux_not_mem (sep : Char) (l : List Char) :
    sep ∉ (splitAux sep l).1 ∧ ∀ p ∈ (splitAux sep l).2, sep ∉ p := by
  induction l with
  | nil => simp [splitAux]
  | cons c cs ih =>
    by_cases h : c = sep
    · simp only [splitAux, h, if_pos rfl]
      exact ⟨by simp, by
        intro p hp
        rcases List.mem_cons.mp hp with h1 | h1
        · exact h1 ▸ ih.1
        · exact ih.2 p h1⟩
    · simp only [splitAux, h, if_neg h]
      refine ⟨?_, ih.2⟩
      intro hmem
      rcases List.mem_cons.mp hmem with h1 | h1
      · exact h (h1.symm)
      · exact ih.1 h1

theorem splitAux_append (sep : Char) (p l : List Char) (hp : sep ∉ p) :
    splitAux sep (p ++ l) = (p ++ (splitAux sep l).1, (splitAux sep l).2) := by
  induction p with
  | nil => simp
  | cons c cs ih =>
    have hc : ¬(c = sep) := fun hh => hp (hh ▸ List.mem_cons_self c cs)
    have hcs : sep ∉ cs := fun hh => hp (List.mem_cons_of_mem c hh)
    simp only [List.cons_append, splitAux, List.append_eq]
    rw [ih hcs]
    simp [hc]

theorem splitOnChar_join (sep : Char) (ps : List (List Char)) (h : ps ≠ [])
    (hc : ∀ p ∈ ps, sep ∉ p) :
    splitOnChar sep (joinWithChar sep ps) = ps := by
  induction ps with
  | nil => exact absurd rfl h
  | cons p qs ih =>
    cases qs with
    | nil =>
      have := splitAux_append sep p [] (hc p (List.mem_cons_self p []))
      simp only [List.append_nil] at this
      simp [splitOnChar, joinWithChar, this, splitAux]
    | cons q rs =>
      have hih := ih (by simp) (fun x hx => hc x (List.mem_cons_of_mem p hx))
      have hp : sep ∉ p := hc p (List.mem_cons_self p _)
      have haux :
          splitAux sep (joinWithChar sep (q :: rs)) =
            ((splitAux sep (joinWithChar sep (q :: rs))).1,
             (splitAux sep (joinWithChar sep (q :: rs))).2) := rfl
      have hj : joinWithChar sep (p :: q :: rs) = p ++ sep :: joinWithChar sep (q :: rs) := rfl
      simp only [splitOnChar] at hih ⊢
      have h1 := splitAux_append sep p (sep :: joinWithChar sep (q :: rs)) hp
      have h2 : splitAux sep (sep :: joinWithChar sep (q :: rs)) =
          ([], (splitAux sep (joinWithChar sep (q :: rs))).1 ::
               (splitAux sep (joinWithChar sep (q :: rs))).2) := by
        simp [splitAux]
      rw [hj, h1, h2]
      simp only [List.append_nil]
      rw [List.cons.injEq] at hih
      simp [hih.1, hih.2]

theorem dropWhile_eq_self_of_head {α : Type} (p : α → Bool) (l : List α)
    (h : ∀ a, l.head? = some a → p a = false) : l.dropWhile p = l := by
  cases l with
  | nil => rfl
  | cons c cs =>
    exact List.dropWhile_cons_of_neg (by simp [h c rfl])

theorem dropWhile_dropWhile {α : Type} (p : α → Bool) (l : List α) :
    (l.dropWhile p).dropWhile p = l.dropWhile p := by
  apply dropWhile_eq_self_of_head
  intro a ha
  have hh := List.head?_dropWhile_not p l
  rw [ha] at hh
  exact hh

theorem stripList_idem (l : List Char) : stripList (stripList l) = stripList l := by
  unfold stripList
  set p := pyIsSpace with hp
  set u := l.dropWhile p with hu
  set v := u.reverse.dropWhile p with hv
  have hvu : u.reverse <:+ u.reverse := List.suffix_refl _
  obtain ⟨w, hw⟩ := List.dropWhile_suffix (l := u.reverse) p
  -- u = v.reverse ++ w.reverse
  have hu2 : u = v.reverse ++ w.reverse := by
    have := congrArg List.reverse hw
    simpa [List.reverse_append] using this.symm
  have hstep1 : v.reverse.dropWhile p = v.reverse := by
    apply dropWhile_eq_self_of_head
    intro a ha
    have hhead : u.head? = some a := by
      cases hvr : v.reverse with
      | nil => rw [hvr] at ha; simp at ha
      | cons x xs =>
        rw [hvr] at ha
        simp only [List.head?_cons, Option.some.injEq] at ha
        rw [hu2, hvr]
        simp [ha]
    have hh := List.head?_dropWhile_not p l
    rw [← hu] at hh
    rw [hhead] at hh
    exact hh
  rw [hstep1, List.reverse_reverse]
  have hstep2 : v.dropWhile p = v := by
    rw [hv]
    exact dropWhile_dropWhile p u.reverse
  rw [hstep2]

theorem stripList_subset (l : List Char) : stripList l ⊆ l := by
  unfold stripList
  intro a ha
  simp only [List.mem_reverse] at ha
  have h1 := List.dropWhile_subset (l := (l.dropWhile pyIsSpace).reverse)
    pyIsSpace ha
  simp only [List.mem_reverse] at h1
  exact List.dropWhile_subset pyIsSpace h1

theorem pyStrip_idem (s : String) : pyStrip (pyStrip s) = pyStrip s := by
  unfold pyStrip
  exact congrArg String.mk (stripList_idem s.data)

theorem parseLedger_clean (c : String) : ∀ n ∈ parseLedger c, cleanName n := by
  intro n hn
  unfold parseLedger at hn
  rw [List.mem_filter] at hn
  obtain ⟨hmem, hne⟩ := hn
  rw [List.mem_map] at hmem
  obtain ⟨m, hm, hms⟩ := hmem
  unfold pySplit at hm
  rw [List.mem_map] at hm
  obtain ⟨piece, hpc, hpm⟩ := hm
  have hnl : '\n' ∉ piece := by
    rcases List.mem_cons.mp hpc with h1 | h1
    · exact h1 ▸ (splitAux_not_mem '\n' c.data).1
    · exact (splitAux_not_mem '\n' c.data).2 piece h1
  refine ⟨?_, by simpa using hne, ?_⟩
  · rw [← hms]; exact pyStrip_idem m
  · rw [← hms, ← hpm]
    unfold pyStrip
    intro hmem2
    exact hnl (stripList_subset _ hmem2)

theorem parseLedger_pyJoin (names : List String) (h : names ≠ [])
    (hc : ∀ n ∈ names, cleanName n) :
    parseLedger (pyJoin '\n' names) = names := by
  unfold parseLedger pyJoin pySplit
  have hdata : (String.mk (joinWithChar '\n' (names.map String.data))).data =
      joinWithChar '\n' (names.map String.data) := rfl
  rw [hdata]
  have hsplit : splitOnChar '\n' (joinWithChar '\n' (names.map String.data)) =
      names.map String.data := by
    apply splitOnChar_join
    · simpa using h
    · intro p hp
      rw [List.mem_map] at hp
      obtain ⟨n, hn, hnp⟩ := hp
      rw [← hnp]
      exact (hc n hn).2.2
  rw [hsplit, List.map_map, List.map_map]
  have hmap : names.map ((pyStrip ∘ String.mk) ∘ String.data) = names.map id := by
    apply List.map_congr_left
    intro n hn
    exact (hc n hn).1
  rw [hmap, List.map_id]
  apply List.filter_eq_self.mpr
  intro n hn
  simpa using (hc n hn).2.1

/-! Part: Helper lemmas: the per-file loop of step 5 -/

/-- A blob hits the `except` branch of the step-5 loop: its download raises,
or (for a supported `file_type`) its parse raises. -/
def failsOne (file_type : String) (b : Blob) : Bool :=
  !b.downloadOk || (supportedType file_type && b.parsed.isNone)

/-- The effect of one step-5 iteration on `files_to_update_log`. -/
def pendStep (file_type : String) (pd : List String) (b : Blob) : List String :=
  if failsOne file_type b then pd.erase (trailingName b.name) else pd

theorem processOne_eq (file_type : String) (acc : List (List (Row × String)) × List String)
    (b : Blob) :
    processOne file_type acc b =
      (acc.1 ++ (taggedOf file_type b).toList, pendStep file_type acc.2 b) := by
  rcases b with ⟨nm, d, p⟩
  cases d <;> cases p <;> cases hs : supportedType file_type <;>
    simp [processOne, taggedOf, failsOne, pendStep, hs]

theorem foldl_processOne_fst (file_type : String) (l : List Blob)
    (acc : List (List (Row × String))) (pend : List String) :
    (l.foldl (processOne file_type) (acc, pend)).1 =
      acc ++ l.filterMap (taggedOf file_type) := by
  induction l generalizing acc pend with
  | nil => simp
  | cons b t ih =>
    rw [List.foldl_cons, processOne_eq, ih]
    cases ht : taggedOf file_type b <;> simp [List.filterMap_cons, ht]

theorem foldl_processOne_snd (file_type : String) (l : List Blob)
    (acc : List (List (Row × String))) (pend : List String) :
    (l.foldl (processOne file_type) (acc, pend)).2 =
      l.foldl (pendStep file_type) pend := by
  induction l generalizing acc pend with
  | nil => simp
  | cons b t ih =>
    rw [List.foldl_cons, processOne_eq, List.foldl_cons, ih]

theorem pendFold_stable (file_type : String) (l : List Blob) (pend : List String)
    (h : ∀ b ∈ l, failsOne file_type b = false) :
    l.foldl (pendStep file_type) pend = pend := by
  induction l generalizing pend with
  | nil => rfl
  | cons b t ih =>
    have hb := h b (List.mem_cons_self b t)
    rw [List.foldl_cons]
    have hstep : pendStep file_type pend b = pend := by
      unfold pendStep
      rw [hb]
      simp
    rw [hstep]
    exact ih pend (fun x hx => h x (List.mem_cons_of_mem b hx))

theorem pendFold_subset (file_type : String) (l : List Blob) (pend : List String) :
    l.foldl (pendStep file_type) pend ⊆ pend := by
  induction l generalizing pend with
  | nil => simp
  | cons b t ih =>
    rw [List.foldl_cons]
    refine (ih _).trans ?_
    unfold pendStep
    split
    · exact List.erase_subset ..
    · exact fun x hx => hx

theorem pendFold_count (file_type : String) (n : String) (l : List Blob) (pend : List String)
    (h : l.countP (fun b => failsOne file_type b && (trailingName b.name == n)) ≤
      pend.count n) :
    (l.foldl (pendStep file_type) pend).count n =
      pend.count n
        - l.countP (fun b => failsOne file_type b && (trailingName b.name == n)) := by
  induction l generalizing pend with
  | nil => simp
  | cons b t ih =>
    rw [List.countP_cons] at h
    rw [List.foldl_cons, List.countP_cons]
    by_cases hf : failsOne file_type b = true
    · by_cases hn : trailingName b.name = n
      · have hq : (failsOne file_type b && (trailingName b.name == n)) = true := by
          simp [hf, hn]
        have hone : (if (failsOne file_type b && (trailingName b.name == n)) = true
            then 1 else 0) = 1 := by rw [hq]; simp
        rw [hone] at h
        rw [hone]
        have hstep : pendStep file_type pend b = pend.erase n := by
          unfold pendStep
          rw [if_pos hf, hn]
        rw [hstep]
        have hcnt : (pend.erase n).count n = pend.count n - 1 :=
          List.count_erase_self n pend
        have hle : t.countP (fun b => failsOne file_type b && (trailingName b.name == n)) ≤
            (pend.erase n).count n := by
          rw [hcnt]; omega
        rw [ih _ hle, hcnt]
        omega
      · have hq : (failsOne file_type b && (trailingName b.name == n)) = false := by
          simp [hn]
        have hzero : (if (failsOne file_type b && (trailingName b.name == n)) = true
            then 1 else 0) = 0 := by rw [hq]; simp
        rw [hzero] at h
        rw [hzero]
        have hstep : pendStep file_type pend b = pend.erase (trailingName b.name) := by
          unfold pendStep
          rw [if_pos hf]
        rw [hstep]
        have hcnt : (pend.erase (trailingName b.name)).count n = pend.count n :=
          List.count_erase_of_ne (fun hh => hn hh.symm) pend
        have hle : t.countP (fun b => failsOne file_type b && (trailingName b.name == n)) ≤
            (pend.erase (trailingName b.name)).count n := by
          rw [hcnt]; omega
        rw [ih _ hle, hcnt]
        omega
    · have hfb : failsOne file_type b = false := by
        cases hx : failsOne file_type b
        · rfl
        · exact absurd hx hf
      have hq : (failsOne file_type b && (trailingName b.name == n)) = false := by
        simp [hfb]
      have hzero : (if (failsOne file_type b && (trailingName b.name == n)) = true
          then 1 else 0) = 0 := by rw [hq]; simp
      rw [hzero] at h
      rw [hzero]
      have hstep : pendStep file_type pend b = pend := by
        unfold pendStep
        rw [hfb]
        simp
      rw [hstep]
      rw [ih _ (by omega)]
      omega

theorem failsOne_eq_not_parsedOk (file_type : String) (b : Blob)
    (hs : supportedType file_type = true) :
    failsOne file_type b = !parsedOk file_type b := by
  rcases b with ⟨nm, d, p⟩
  cases d <;> cases p <;> simp [failsOne, parsedOk, hs]

theorem countP_split {α : Type} (p q : α → Bool) (l : List α) :
    l.countP q = l.countP (fun a => p a && q a) + l.countP (fun a => !p a && q a) := by
  induction l with
  | nil => simp
  | cons a t ih =>
    rw [List.countP_cons, List.countP_cons, List.countP_cons, ih]
    cases hp : p a <;> cases hq : q a <;> simp [hp, hq] <;> omega

theorem mem_final_pending (file_type : String) (hs : supportedType file_type = true)
    (l : List Blob) (n : String) :
    (n ∈ l.foldl (pendStep file_type) (l.map fun b => trailingName b.name)) ↔
      ∃ b ∈ l, parsedOk file_type b = true ∧ trailingName b.name = n := by
  have hcount : (l.map fun b => trailingName b.name).count n
      = l.countP (fun b => (trailingName b.name == n)) := by
    rw [List.count_eq_countP, List.countP_map]
    rfl
  have hsplit := countP_split (failsOne file_type)
    (fun b => (trailingName b.name == n)) l
  have hcongr : l.countP (fun b => !failsOne file_type b && (trailingName b.name == n))
      = l.countP (fun b => parsedOk file_type b && (trailingName b.name == n)) := by
    apply List.countP_congr
    intro b _
    rw [failsOne_eq_not_parsedOk file_type b hs, Bool.not_not]
  have hle : l.countP (fun b => failsOne file_type b && (trailingName b.name == n)) ≤
      (l.map fun b => trailingName b.name).count n := by
    rw [hcount, hsplit]
    omega
  have hfin := pendFold_count file_type n l (l.map fun b => trailingName b.name) hle
  rw [hcount, hsplit, hcongr] at hfin
  have hfin2 : (l.foldl (pendStep file_type) (l.map fun b => trailingName b.name)).count n
      = l.countP (fun b => parsedOk file_type b && (trailingName b.name == n)) := by
    rw [hfin]
    omega
  constructor
  · intro hmem
    have hpos : 0 < l.countP (fun b => parsedOk file_type b && (trailingName b.name == n)) := by
      rw [← hfin2]
      exact List.count_pos_iff.mpr hmem
    obtain ⟨b, hb, hpb⟩ := List.countP_pos_iff.mp hpos
    rw [Bool.and_eq_true, beq_iff_eq] at hpb
    exact ⟨b, hb, hpb.1, hpb.2⟩
  · intro ⟨b, hb, hpb, hnb⟩
    apply List.count_pos_iff.mp
    rw [hfin2]
    apply List.countP_pos_iff.mpr
    exact ⟨b, hb, by rw [Bool.and_eq_true, beq_iff_eq]; exact ⟨hpb, hnb⟩⟩

/-! Part: Helper lemmas: run characterization -/

/-- The initial `files_to_update_log` of step 4. -/
def pend0Of (σ : Store) (file_type : String) (filePfx : Option String)
    (read_log_file : Bool) : List String :=
  (toReadOf σ file_type filePfx read_log_file).map fun b => trailingName b.name

/-- The state of (accumulated dataframes, `files_to_update_log`) after the
step-5 loop. -/
def foldOf (σ : Store) (file_type : String) (filePfx : Option String)
    (read_log_file : Bool) : List (List (Row × String)) × List String :=
  (toReadOf σ file_type filePfx read_log_file).foldl (processOne file_type)
    ([], pend0Of σ file_type filePfx read_log_file)

theorem read_gcs_eq_runCore (σ : Store) (file_type : String) (filePfx : Option String)
    (read_log_file : Bool) (h1 : σ.listFails = false)
    (h2 : (read_log_file && σ.ledgerReadFails) = false) :
    read_gcs_files_to_dataframes_aserta σ file_type filePfx read_log_file =
      runCore σ file_type filePfx read_log_file := by
  unfold read_gcs_files_to_dataframes_aserta runBody
  simp [h1, h2]

theorem read_gcs_catch (σ : Store) (file_type : String) (filePfx : Option String)
    (read_log_file : Bool)
    (h : σ.listFails = true ∨ (read_log_file && σ.ledgerReadFails) = true) :
    read_gcs_files_to_dataframes_aserta σ file_type filePfx read_log_file =
      ⟨[], σ, [], false⟩ := by
  unfold read_gcs_files_to_dataframes_aserta runBody
  by_cases h2 : (read_log_file && σ.ledgerReadFails) = true
  · simp [h2]
  · rcases h with h1 | h1
    · simp [h2, h1]
    · exact absurd h1 h2

theorem runCore_toRead_nil (σ : Store) (file_type : String) (filePfx : Option String)
    (read_log_file : Bool) (h : toReadOf σ file_type filePfx read_log_file = []) :
    runCore σ file_type filePfx read_log_file = ⟨[], σ, [], false⟩ := by
  unfold runCore
  by_cases hc : candidate_files σ.listed file_type filePfx = []
  · simp [hc]
  · have h' : files_to_read (candidate_files σ.listed file_type filePfx)
        (files_already_read_of σ read_log_file) read_log_file = [] := by
      simpa [toReadOf, candidatesOf] using h
    simp [hc, h']

theorem runCore_main (σ : Store) (file_type : String) (filePfx : Option String)
    (read_log_file : Bool) (h : toReadOf σ file_type filePfx read_log_file ≠ []) :
    runCore σ file_type filePfx read_log_file =
      (if (foldOf σ file_type filePfx read_log_file).1 = [] then
        ⟨[], σ, (foldOf σ file_type filePfx read_log_file).2, false⟩
      else if read_log_file = true ∧ (foldOf σ file_type filePfx read_log_file).2 ≠ [] then
        (if σ.ledgerWriteFails then
          ⟨(foldOf σ file_type filePfx read_log_file).1.flatten, σ,
            (foldOf σ file_type filePfx read_log_file).2, true⟩
         else
          ⟨(foldOf σ file_type filePfx read_log_file).1.flatten,
            { σ with ledger := some (pyJoin '\n' (files_already_read_of σ read_log_file ++
              (foldOf σ file_type filePfx read_log_file).2)) },
            (foldOf σ file_type filePfx read_log_file).2, true⟩)
      else ⟨(foldOf σ file_type filePfx read_log_file).1.flatten, σ,
        (foldOf σ file_type filePfx read_log_file).2, false⟩) := by
  have hc : ¬(candidate_files σ.listed file_type filePfx = []) := by
    intro hnil
    apply h
    simp [toReadOf, candidatesOf, files_to_read, hnil]
  have h' : ¬(files_to_read (candidate_files σ.listed file_type filePfx)
      (files_already_read_of σ read_log_file) read_log_file = []) := by
    simpa [toReadOf, candidatesOf] using h
  unfold runCore
  simp only [if_neg hc, if_neg h']
  rfl

/-! Part: Claim theorems -/

/-- C2: total, non-raising return contract. The embedded routine is a total
function; this theorem states that for every combination of arguments and
collaborator behaviour, either the body completes and its result is returned
unchanged, or the body raised and the call still returns, with an empty
dataframe, the store untouched and no ledger write attempted. -/
theorem c2_total_return (σ : Store) (file_type : String) (filePfx : Option String)
    (read_log_file : Bool) :
    runBody σ file_type filePfx read_log_file =
        Except.ok (read_gcs_files_to_dataframes_aserta σ file_type filePfx read_log_file)
      ∨ ((read_gcs_files_to_dataframes_aserta σ file_type filePfx read_log_file).df = []
          ∧ (read_gcs_files_to_dataframes_aserta σ file_type filePfx read_log_file).store = σ
          ∧ (read_gcs_files_to_dataframes_aserta σ file_type filePfx
              read_log_file).ledgerWriteAttempted = false) := by
  unfold read_gcs_files_to_dataframes_aserta
  cases hr : runBody σ file_type filePfx read_log_file with
  | ok r => left; rfl
  | error e => right; exact ⟨rfl, rfl, rfl⟩

/-- C7: candidate-filter correctness: the candidate set is exactly the listed
blobs whose name ends with `file_type`, whose trailing path segment starts
with the file prefix when one is given, and whose trailing path segment is
not the ledger file name; and on the concrete listing of the claim with
`file_type = ".csv"` and prefix `"a_"`, only `a_data.csv` is a candidate. -/
theorem c7_candidate_filter_correct (σ : Store) (file_type : String)
    (filePfx : Option String) :
    (∀ b : Blob, b ∈ candidatesOf σ file_type filePfx ↔
        b ∈ σ.listed ∧ pyEndsWith file_type b.name = true ∧
          (∀ p, filePfx = some p → pyStartsWith p (trailingName b.name) = true) ∧
          trailingName b.name ≠ log_filename)
      ∧ candidatesOf
          ⟨[⟨"a_data.csv", true, some []⟩, ⟨"b_other.csv", true, some []⟩,
            ⟨"a_data.txt", true, some []⟩], false, none, false, false⟩
          ".csv" (some "a_")
        = [⟨"a_data.csv", true, some []⟩] := by
  constructor
  · intro b
    unfold candidatesOf candidate_files
    rw [List.mem_filter]
    cases filePfx with
    | none => simp [bne_iff_ne]
    | some p => simp [bne_iff_ne, and_assoc]
  · decide

/-- C8: early-exit frame condition: when the candidate set is empty, or when
`read_log_file` is set and every candidate's trailing name is already in the
ledger, the call returns an empty dataframe, attempts no ledger write, and
leaves the store unmodified. -/
theorem c8_early_exit_frame (σ : Store) (file_type : String) (filePfx : Option String)
    (read_log_file : Bool)
    (h : candidatesOf σ file_type filePfx = []
      ∨ (read_log_file = true ∧ ∀ b ∈ candidatesOf σ file_type filePfx,
          trailingName b.name ∈ files_already_read_of σ true)) :
    read_gcs_files_to_dataframes_aserta σ file_type filePfx read_log_file =
      ⟨[], σ, [], false⟩ := by
  by_cases hset : σ.listFails = true ∨ (read_log_file && σ.ledgerReadFails) = true
  · exact read_gcs_catch σ file_type filePfx read_log_file hset
  · push_neg at hset
    have h1 : σ.listFails = false := by
      cases hx : σ.listFails
      · rfl
      · exact absurd hx hset.1
    have h2 : (read_log_file && σ.ledgerReadFails) = false := by
      cases hx : (read_log_file && σ.ledgerReadFails)
      · rfl
      · exact absurd hx hset.2
    rw [read_gcs_eq_runCore σ file_type filePfx read_log_file h1 h2]
    apply runCore_toRead_nil
    rcases h with hc | ⟨hrl, hall⟩
    · simp [toReadOf, hc, files_to_read]
    · subst hrl
      unfold toReadOf files_to_read
      rw [List.filter_eq_nil_iff]
      intro b hb
      have hmem := hall b hb
      simp [List.contains, List.elem_eq_mem, hmem]

/-- Witness for C8 at a store with no blobs at all. -/
theorem c8_early_exit_frame_witness :
    read_gcs_files_to_dataframes_aserta ⟨[], false, none, false, false⟩ ".csv" none true =
      ⟨[], ⟨[], false, none, false, false⟩, [], false⟩ :=
  c8_early_exit_frame _ _ _ _ (Or.inl rfl)

/-! Part: taggedOf facts -/

theorem taggedOf_of_unsupported (file_type : String) (b : Blob)
    (hs : supportedType file_type = false) : taggedOf file_type b = none := by
  unfold taggedOf
  cases b.downloadOk <;> simp [hs]

theorem taggedOf_of_parsedOk (file_type : String) (b : Blob)
    (hp : parsedOk file_type b = true) :
    taggedOf file_type b =
      some ((b.parsed.getD []).map fun r => (r, trailingName b.name)) := by
  rcases b with ⟨nm, d, p⟩
  unfold parsedOk at hp
  rw [Bool.and_eq_true, Bool.and_eq_true] at hp
  obtain ⟨⟨hd, hs⟩, hps⟩ := hp
  cases p with
  | none => simp at hps
  | some rows =>
    unfold taggedOf
    simp only at hd
    simp [hd, hs]

theorem supported_of_parsedOk (file_type : String) (b : Blob)
    (hp : parsedOk file_type b = true) : supportedType file_type = true := by
  unfold parsedOk at hp
  rw [Bool.and_eq_true, Bool.and_eq_true] at hp
  exact hp.1.2

/-- The returned dataframe, whenever the setup collaborator calls succeed, is
the concatenation of the tagged tables of the successfully parsed files of
`files_to_read`, in listing order. -/
theorem run_df_eq (σ : Store) (file_type : String) (filePfx : Option String)
    (read_log_file : Bool) (h1 : σ.listFails = false)
    (h2 : (read_log_file && σ.ledgerReadFails) = false) :
    (read_gcs_files_to_dataframes_aserta σ file_type filePfx read_log_file).df =
      ((toReadOf σ file_type filePfx read_log_file).filterMap
        (taggedOf file_type)).flatten := by
  rw [read_gcs_eq_runCore σ file_type filePfx read_log_file h1 h2]
  by_cases htr : toReadOf σ file_type filePfx read_log_file = []
  · rw [runCore_toRead_nil σ file_type filePfx read_log_file htr, htr]
    rfl
  · rw [runCore_main σ file_type filePfx read_log_file htr]
    have hfst : (foldOf σ file_type filePfx read_log_file).1 =
        (toReadOf σ file_type filePfx read_log_file).filterMap (taggedOf file_type) := by
      rw [foldOf, foldl_processOne_fst]
      simp
    split
    · rename_i hnil
      rw [hfst] at hnil
      rw [hnil]
      rfl
    · split
      · split
        · rw [← hfst]
        · rw [← hfst]
      · rw [← hfst]

/-- C9 (implicit): for a `file_type` other than `.xlsx` and `.csv`, the call
returns an empty dataframe and never writes (or attempts to write) the ledger
object, leaving the store unchanged; and, when the setup calls succeed and
every file to read downloads fine, the final in-memory pending-update list
still holds every such file's trailing name. -/
theorem c9_unsupported_type_frame (σ : Store) (file_type : String)
    (filePfx : Option String) (read_log_file : Bool)
    (hx : file_type ≠ ".xlsx") (hc : file_type ≠ ".csv") :
    (read_gcs_files_to_dataframes_aserta σ file_type filePfx read_log_file).df = []
      ∧ (read_gcs_files_to_dataframes_aserta σ file_type filePfx read_log_file).store = σ
      ∧ (read_gcs_files_to_dataframes_aserta σ file_type filePfx
          read_log_file).ledgerWriteAttempted = false
      ∧ (σ.listFails = false → σ.ledgerReadFails = false →
          (∀ b ∈ toReadOf σ file_type filePfx read_log_file, b.downloadOk = true) →
          (read_gcs_files_to_dataframes_aserta σ file_type filePfx
              read_log_file).files_to_update_log =
            (toReadOf σ file_type filePfx read_log_file).map fun b => trailingName b.name) := by
  have hs : supportedType file_type = false := by
    unfold supportedType
    rw [beq_eq_false_iff_ne.mpr hx, beq_eq_false_iff_ne.mpr hc]
    rfl
  by_cases hset : σ.listFails = true ∨ (read_log_file && σ.ledgerReadFails) = true
  · rw [read_gcs_catch σ file_type filePfx read_log_file hset]
    refine ⟨rfl, rfl, rfl, ?_⟩
    intro hL hR _
    rcases hset with h1 | h1
    · rw [hL] at h1; cases h1
    · rw [Bool.and_eq_true] at h1
      rw [hR] at h1
      cases h1.2
  · push_neg at hset
    have h1 : σ.listFails = false := by
      cases hq : σ.listFails
      · rfl
      · exact absurd hq hset.1
    have h2 : (read_log_file && σ.ledgerReadFails) = false := by
      cases hq : (read_log_file && σ.ledgerReadFails)
      · rfl
      · exact absurd hq hset.2
    rw [read_gcs_eq_runCore σ file_type filePfx read_log_file h1 h2]
    by_cases htr : toReadOf σ file_type filePfx read_log_file = []
    · rw [runCore_toRead_nil σ file_type filePfx read_log_file htr]
      exact ⟨rfl, rfl, rfl, fun _ _ _ => by rw [htr]; rfl⟩
    · rw [runCore_main σ file_type filePfx read_log_file htr]
      have hfst : (foldOf σ file_type filePfx read_log_file).1 = [] := by
        rw [foldOf, foldl_processOne_fst]
        simp only [List.nil_append]
        rw [List.filterMap_eq_nil_iff]
        intro b _
        rw [taggedOf_of_unsupported file_type b hs]
      rw [if_pos hfst]
      refine ⟨rfl, rfl, rfl, ?_⟩
      intro _ _ hdl
      show (foldOf σ file_type filePfx read_log_file).2 = _
      rw [foldOf, foldl_processOne_snd, pendFold_stable]
      · rfl
      · intro b hb
        unfold failsOne
        rw [hdl b hb, hs]
        rfl

/-- Witness for C9: a `.txt` run over a store with one matching, downloadable
blob returns nothing, writes nothing, and keeps the blob's name pending. -/
theorem c9_unsupported_type_frame_witness :
    (read_gcs_files_to_dataframes_aserta
        ⟨[⟨"a.txt", true, some [1]⟩], false, none, false, false⟩ ".txt" none true).df = []
      ∧ (read_gcs_files_to_dataframes_aserta
          ⟨[⟨"a.txt", true, some [1]⟩], false, none, false, false⟩ ".txt" none true).store =
        ⟨[⟨"a.txt", true, some [1]⟩], false, none, false, false⟩
      ∧ (read_gcs_files_to_dataframes_aserta
          ⟨[⟨"a.txt", true, some [1]⟩], false, none, false, false⟩ ".txt" none
          true).ledgerWriteAttempted = false
      ∧ ((⟨[⟨"a.txt", true, some [1]⟩], false, none, false, false⟩ : Store).listFails = false →
          (⟨[⟨"a.txt", true, some [1]⟩], false, none, false, false⟩ : Store).ledgerReadFails
            = false →
          (∀ b ∈ toReadOf ⟨[⟨"a.txt", true, some [1]⟩], false, none, false, false⟩ ".txt" none
              true, b.downloadOk = true) →
          (read_gcs_files_to_dataframes_aserta
              ⟨[⟨"a.txt", true, some [1]⟩], false, none, false, false⟩ ".txt" none
              true).files_to_update_log =
            (toReadOf ⟨[⟨"a.txt", true, some [1]⟩], false, none, false, false⟩ ".txt" none
              true).map fun b => trailingName b.name) :=
  c9_unsupported_type_frame _ _ _ _ (by decide) (by decide)

theorem foldOf_snd (σ : Store) (file_type : String) (filePfx : Option String)
    (read_log_file : Bool) :
    (foldOf σ file_type filePfx read_log_file).2 =
      (toReadOf σ file_type filePfx read_log_file).foldl (pendStep file_type)
        (pend0Of σ file_type filePfx read_log_file) := by
  rw [foldOf, foldl_processOne_snd]

theorem pend_mem_of_success (σ : Store) (file_type : String) (filePfx : Option String)
    (read_log_file : Bool) (b : Blob) (hb : b ∈ toReadOf σ file_type filePfx read_log_file)
    (hp : parsedOk file_type b = true) :
    trailingName b.name ∈ (foldOf σ file_type filePfx read_log_file).2 := by
  rw [foldOf_snd]
  have hs := supported_of_parsedOk file_type b hp
  exact (mem_final_pending file_type hs (toReadOf σ file_type filePfx read_log_file)
    (trailingName b.name)).mpr ⟨b, hb, hp, rfl⟩

theorem fst_ne_of_success (σ : Store) (file_type : String) (filePfx : Option String)
    (read_log_file : Bool) (b : Blob) (hb : b ∈ toReadOf σ file_type filePfx read_log_file)
    (hp : parsedOk file_type b = true) :
    (foldOf σ file_type filePfx read_log_file).1 ≠ [] := by
  have hfst : (foldOf σ file_type filePfx read_log_file).1 =
      (toReadOf σ file_type filePfx read_log_file).filterMap (taggedOf file_type) := by
    rw [foldOf, foldl_processOne_fst]
    simp
  rw [hfst]
  have htag := taggedOf_of_parsedOk file_type b hp
  have hmem : ((b.parsed.getD []).map fun r => (r, trailingName b.name)) ∈
      (toReadOf σ file_type filePfx read_log_file).filterMap (taggedOf file_type) := by
    rw [List.mem_filterMap]
    exact ⟨b, hb, htag⟩
  exact List.ne_nil_of_mem hmem

/-- C6: ledger-write failure is non-reverting: when the setup calls succeed,
at least one file parses successfully and the ledger upload raises, the call
still returns the full concatenation of all successfully parsed files' tagged
tables, the write was attempted, the store is unchanged, and the returned
data equals what the same run returns when the ledger write succeeds. -/
theorem c6_write_failure_non_reverting (σ : Store) (file_type : String)
    (filePfx : Option String)
    (hW : σ.ledgerWriteFails = true) (hL : σ.listFails = false)
    (hR : σ.ledgerReadFails = false)
    (hOne : ∃ b ∈ toReadOf σ file_type filePfx true, parsedOk file_type b = true) :
    (read_gcs_files_to_dataframes_aserta σ file_type filePfx true).df =
        ((toReadOf σ file_type filePfx true).filterMap (taggedOf file_type)).flatten
      ∧ (read_gcs_files_to_dataframes_aserta σ file_type filePfx
          true).ledgerWriteAttempted = true
      ∧ (read_gcs_files_to_dataframes_aserta σ file_type filePfx true).store = σ
      ∧ (read_gcs_files_to_dataframes_aserta σ file_type filePfx true).df =
          (read_gcs_files_to_dataframes_aserta
            ⟨σ.listed, σ.listFails, σ.ledger, σ.ledgerReadFails, false⟩
            file_type filePfx true).df := by
  obtain ⟨b, hb, hp⟩ := hOne
  have h2 : (true && σ.ledgerReadFails) = false := by rw [hR]; rfl
  have htr : toReadOf σ file_type filePfx true ≠ [] := List.ne_nil_of_mem hb
  have hdfeq := run_df_eq σ file_type filePfx true hL h2
  refine ⟨hdfeq, ?_, ?_, ?_⟩
  · rw [read_gcs_eq_runCore σ file_type filePfx true hL h2,
      runCore_main σ file_type filePfx true htr,
      if_neg (fst_ne_of_success σ file_type filePfx true b hb hp),
      if_pos ⟨rfl, List.ne_nil_of_mem (pend_mem_of_success σ file_type filePfx true b hb hp)⟩,
      if_pos hW]
  · rw [read_gcs_eq_runCore σ file_type filePfx true hL h2,
      runCore_main σ file_type filePfx true htr,
      if_neg (fst_ne_of_success σ file_type filePfx true b hb hp),
      if_pos ⟨rfl, List.ne_nil_of_mem (pend_mem_of_success σ file_type filePfx true b hb hp)⟩,
      if_pos hW]
  · rw [hdfeq]
    have hL' : (⟨σ.listed, σ.listFails, σ.ledger, σ.ledgerReadFails, false⟩ : Store).listFails
        = false := hL
    have h2' : (true &&
        (⟨σ.listed, σ.listFails, σ.ledger, σ.ledgerReadFails, false⟩ : Store).ledgerReadFails)
        = false := h2
    rw [run_df_eq _ file_type filePfx true hL' h2']
    rfl

/-- Witness for C6: one good `.csv` blob, ledger write failing. -/
theorem c6_write_failure_non_reverting_witness :
    (read_gcs_files_to_dataframes_aserta
        ⟨[⟨"a.csv", true, some [3]⟩], false, none, false, true⟩ ".csv" none true).store =
      ⟨[⟨"a.csv", true, some [3]⟩], false, none, false, true⟩ :=
  (c6_write_failure_non_reverting _ _ _ rfl rfl rfl (by decide)).2.2.1

theorem taggedOf_some_inv (file_type : String) (b : Blob) (d : List (Row × String))
    (h : taggedOf file_type b = some d) :
    supportedType file_type = true ∧ parsedOk file_type b = true := by
  rcases b with ⟨nm, dl, p⟩
  unfold taggedOf at h
  cases dl with
  | false => simp at h
  | true =>
    cases hs : supportedType file_type with
    | false => rw [hs] at h; simp at h
    | true =>
      rw [hs] at h
      simp only [if_pos] at h
      cases p with
      | none => simp at h
      | some rows => exact ⟨rfl, by unfold parsedOk; rw [hs]; rfl⟩

theorem files_already_read_true_eq (σ : Store) :
    files_already_read_of σ true = ledgerNamesOf σ := rfl

theorem files_already_read_clean (σ : Store) :
    ∀ n ∈ files_already_read_of σ true, cleanName n := by
  intro n hn
  unfold files_already_read_of at hn
  cases hσ : σ.ledger with
  | none => rw [hσ] at hn; simp at hn
  | some content =>
    rw [hσ] at hn
    simp only [if_pos] at hn
    exact parseLedger_clean content n hn

theorem toReadOf_subset_candidates (σ : Store) (file_type : String)
    (filePfx : Option String) (read_log_file : Bool) :
    toReadOf σ file_type filePfx read_log_file ⊆ candidatesOf σ file_type filePfx := by
  unfold toReadOf files_to_read
  exact (List.filter_sublist _).subset

/-- C5: ledger persistence round-trip: when a run with the ledger enabled
reads exactly two files with trailing names `x.csv` and `y.csv`, both parse
successfully and the ledger upload succeeds, the ledger object afterwards is
exactly the previous names followed by the two new names joined by newlines,
and re-reading it with the ledger parser yields the previous names plus those
two names. -/
theorem c5_ledger_roundtrip (σ : Store) (filePfx : Option String) (b1 b2 : Blob)
    (hL : σ.listFails = false) (hR : σ.ledgerReadFails = false)
    (hW : σ.ledgerWriteFails = false)
    (htr : toReadOf σ ".csv" filePfx true = [b1, b2])
    (hn1 : trailingName b1.name = "x.csv") (hn2 : trailingName b2.name = "y.csv")
    (hp1 : parsedOk ".csv" b1 = true) (hp2 : parsedOk ".csv" b2 = true) :
    (read_gcs_files_to_dataframes_aserta σ ".csv" filePfx true).store.ledger
        = some (pyJoin '\n' (files_already_read_of σ true ++ ["x.csv", "y.csv"]))
      ∧ ledgerNamesOf (read_gcs_files_to_dataframes_aserta σ ".csv" filePfx true).store
        = files_already_read_of σ true ++ ["x.csv", "y.csv"] := by
  have h2 : (true && σ.ledgerReadFails) = false := by rw [hR]; rfl
  have htrne : toReadOf σ ".csv" filePfx true ≠ [] := by rw [htr]; simp
  have hb1 : b1 ∈ toReadOf σ ".csv" filePfx true := by rw [htr]; simp
  have hpend : (foldOf σ ".csv" filePfx true).2 = ["x.csv", "y.csv"] := by
    rw [foldOf_snd, pendFold_stable]
    · show (toReadOf σ ".csv" filePfx true).map (fun b => trailingName b.name) = _
      rw [htr]
      simp [hn1, hn2]
    · intro b hb
      rw [htr] at hb
      rcases List.mem_cons.mp hb with h | h
      · rw [h, failsOne_eq_not_parsedOk _ _ (supported_of_parsedOk _ _ hp1), hp1]
        rfl
      · rw [List.mem_singleton] at h
        rw [h, failsOne_eq_not_parsedOk _ _ (supported_of_parsedOk _ _ hp2), hp2]
        rfl
  have hfstne := fst_ne_of_success σ ".csv" filePfx true b1 hb1 hp1
  have hstore : (read_gcs_files_to_dataframes_aserta σ ".csv" filePfx true).store =
      { σ with ledger := some (pyJoin '\n' (files_already_read_of σ true ++
        ["x.csv", "y.csv"])) } := by
    rw [read_gcs_eq_runCore σ ".csv" filePfx true hL h2,
      runCore_main σ ".csv" filePfx true htrne,
      if_neg hfstne,
      if_pos ⟨rfl, by rw [hpend]; simp⟩,
      if_neg (by rw [hW]; simp)]
    rw [hpend]
  constructor
  · rw [hstore]
  · rw [hstore]
    show parseLedger (pyJoin '\n' (files_already_read_of σ true ++ ["x.csv", "y.csv"])) = _
    apply parseLedger_pyJoin
    · simp
    · intro n hn
      rcases List.mem_append.mp hn with h | h
      · exact files_already_read_clean σ n h
      · rcases List.mem_cons.mp h with h' | h'
        · rw [h']; decide
        · rw [List.mem_singleton] at h'
          rw [h']; decide

/-- Witness for C5: previous ledger holding `old.csv`, two fresh files. -/
theorem c5_ledger_roundtrip_witness :
    (read_gcs_files_to_dataframes_aserta
        ⟨[⟨"d/x.csv", true, some [1]⟩, ⟨"d/y.csv", true, some [2]⟩], false,
          some "old.csv", false, false⟩ ".csv" none true).store.ledger
        = some (pyJoin '\n' (files_already_read_of
            ⟨[⟨"d/x.csv", true, some [1]⟩, ⟨"d/y.csv", true, some [2]⟩], false,
              some "old.csv", false, false⟩ true ++ ["x.csv", "y.csv"]))
      ∧ ledgerNamesOf (read_gcs_files_to_dataframes_aserta
          ⟨[⟨"d/x.csv", true, some [1]⟩, ⟨"d/y.csv", true, some [2]⟩], false,
            some "old.csv", false, false⟩ ".csv" none true).store
        = files_already_read_of
            ⟨[⟨"d/x.csv", true, some [1]⟩, ⟨"d/y.csv", true, some [2]⟩], false,
              some "old.csv", false, false⟩ true ++ ["x.csv", "y.csv"] :=
  c5_ledger_roundtrip _ _ ⟨"d/x.csv", true, some [1]⟩ ⟨"d/y.csv", true, some [2]⟩
    rfl rfl rfl (by decide) (by decide) (by decide) (by decide) (by decide)

/-- C1, counterexample to the claim as stated: a candidate file whose
trailing name ` x.csv` carries a leading space is successfully parsed, yet
the ledger afterwards contains the name `x.csv`, which was not in the ledger
before the run and is not the trailing name of any successfully parsed
candidate (the ledger parser strips each line on re-reading). -/
theorem c1_ledger_soundness_counterexample :
    "x.csv" ∈ ledgerNamesOf (read_gcs_files_to_dataframes_aserta
        ⟨[⟨" x.csv", true, some [0]⟩], false, none, false, false⟩ ".csv" none true).store
      ∧ "x.csv" ∉
          ledgerNamesOf (⟨[⟨" x.csv", true, some [0]⟩], false, none, false, false⟩ : Store)
      ∧ ∀ b ∈ candidatesOf
          (⟨[⟨" x.csv", true, some [0]⟩], false, none, false, false⟩ : Store) ".csv" none,
          ¬(trailingName b.name = "x.csv" ∧ parsedOk ".csv" b = true) := by decide

/-- C1, amended: restricted to candidate files whose trailing names survive
the ledger write/read round trip unchanged (nonempty, no surrounding
whitespace, no newline), every name present in the persisted ledger after a
run with the ledger enabled either was already in the ledger before the run
or is the trailing name of a candidate whose bytes were successfully parsed
during that run; in particular a file whose download or parse failed is never
added. -/
theorem c1_ledger_soundness_amended (σ : Store) (file_type : String)
    (filePfx : Option String)
    (hClean : ∀ b ∈ candidatesOf σ file_type filePfx, cleanName (trailingName b.name)) :
    ∀ name ∈ ledgerNamesOf
        (read_gcs_files_to_dataframes_aserta σ file_type filePfx true).store,
      name ∈ ledgerNamesOf σ
        ∨ ∃ b ∈ candidatesOf σ file_type filePfx,
            trailingName b.name = name ∧ parsedOk file_type b = true := by
  intro name hname
  by_cases hset : σ.listFails = true ∨ (true && σ.ledgerReadFails) = true
  · rw [read_gcs_catch σ file_type filePfx true hset] at hname
    exact Or.inl hname
  · push_neg at hset
    have h1 : σ.listFails = false := by
      cases hq : σ.listFails
      · rfl
      · exact absurd hq hset.1
    have h2 : (true && σ.ledgerReadFails) = false := by
      cases hq : (true && σ.ledgerReadFails)
      · rfl
      · exact absurd hq hset.2
    rw [read_gcs_eq_runCore σ file_type filePfx true h1 h2] at hname
    by_cases htr : toReadOf σ file_type filePfx true = []
    · rw [runCore_toRead_nil σ file_type filePfx true htr] at hname
      exact Or.inl hname
    · rw [runCore_main σ file_type filePfx true htr] at hname
      revert hname
      split
      · exact fun hname => Or.inl hname
      · split
        · rename_i hcond
          split
          · exact fun hname => Or.inl hname
          · -- successful ledger write
            intro hname
            have hfstne : ¬((foldOf σ file_type filePfx true).1 = []) := by
              rename_i hf _
              exact hf
            -- extract supportedness from a successfully tagged blob
            have hsupp : supportedType file_type = true := by
              have hfst : (foldOf σ file_type filePfx true).1 =
                  (toReadOf σ file_type filePfx true).filterMap (taggedOf file_type) := by
                rw [foldOf, foldl_processOne_fst]
                simp
              rcases hd : (foldOf σ file_type filePfx true).1 with _ | ⟨d, ds⟩
              · exact absurd hd hfstne
              · have hmem : d ∈ (toReadOf σ file_type filePfx true).filterMap
                    (taggedOf file_type) := by
                  rw [← hfst, hd]
                  simp
                rw [List.mem_filterMap] at hmem
                obtain ⟨b, _, hb⟩ := hmem
                exact (taggedOf_some_inv file_type b d hb).1
            have hround : ledgerNamesOf
                { σ with ledger := some (pyJoin '\n' (files_already_read_of σ true ++
                  (foldOf σ file_type filePfx true).2)) } =
                files_already_read_of σ true ++ (foldOf σ file_type filePfx true).2 := by
              show parseLedger _ = _
              apply parseLedger_pyJoin
              · intro hnil
                rw [List.append_eq_nil] at hnil
                exact hcond.2 hnil.2
              · intro n hn
                rcases List.mem_append.mp hn with h | h
                · exact files_already_read_clean σ n h
                · have hsub : (foldOf σ file_type filePfx true).2 ⊆
                      pend0Of σ file_type filePfx true := by
                    rw [foldOf_snd]
                    exact pendFold_subset file_type _ _
                  have hn0 := hsub h
                  rw [pend0Of, List.mem_map] at hn0
                  obtain ⟨b, hb, hbn⟩ := hn0
                  rw [← hbn]
                  exact hClean b (toReadOf_subset_candidates σ file_type filePfx true hb)
            rw [hround] at hname
            rcases List.mem_append.mp hname with h | h
            · exact Or.inl h
            · right
              have hp : name ∈ (toReadOf σ file_type filePfx true).foldl
                  (pendStep file_type)
                  ((toReadOf σ file_type filePfx true).map fun b => trailingName b.name) := by
                have hsnd := foldOf_snd σ file_type filePfx true
                rw [hsnd] at h
                exact h
              obtain ⟨b, hb, hpb, hbn⟩ :=
                (mem_final_pending file_type hsupp (toReadOf σ file_type filePfx true)
                  name).mp hp
              exact ⟨b, toReadOf_subset_candidates σ file_type filePfx true hb, hbn, hpb⟩
        · exact fun hname => Or.inl hname

/-- Witness for the amended C1: a clean store with one parsed file and a
pre-existing ledger entry; the name `a.csv` found in the post-run ledger is
accounted for by the parsed candidate `p/a.csv`. -/
theorem c1_ledger_soundness_amended_witness :
    "a.csv" ∈ ledgerNamesOf
        (⟨[⟨"p/a.csv", true, some [1]⟩], false, some "old.csv", false, false⟩ : Store)
      ∨ ∃ b ∈ candidatesOf
          (⟨[⟨"p/a.csv", true, some [1]⟩], false, some "old.csv", false, false⟩ : Store)
          ".csv" none,
          trailingName b.name = "a.csv" ∧ parsedOk ".csv" b = true :=
  c1_ledger_soundness_amended
    ⟨[⟨"p/a.csv", true, some [1]⟩], false, some "old.csv", false, false⟩ ".csv" none
    (by decide) "a.csv" (by decide)

theorem mem_toReadOf_of_not_ledger (σ : Store) (file_type : String)
    (filePfx : Option String) (b : Blob) (hb : b ∈ candidatesOf σ file_type filePfx)
    (h : trailingName b.name ∉ files_already_read_of σ true) :
    b ∈ toReadOf σ file_type filePfx true := by
  unfold toReadOf files_to_read
  rw [List.mem_filter]
  refine ⟨hb, ?_⟩
  simp [List.contains, List.elem_eq_mem, h]

theorem not_mem_toReadOf_of_ledger (σ : Store) (file_type : String)
    (filePfx : Option String) (b : Blob)
    (h : trailingName b.name ∈ files_already_read_of σ true) :
    b ∉ toReadOf σ file_type filePfx true := by
  intro hmem
  unfold toReadOf files_to_read at hmem
  rw [List.mem_filter] at hmem
  have := hmem.2
  simp [List.contains, List.elem_eq_mem, h] at this

/-- The store after a run with the ledger enabled, no collaborator failures,
and at least one successfully parsed file: the ledger object is overwritten
with the previous names followed by the surviving pending names. -/
theorem run1_store_of_success (σ : Store) (file_type : String) (filePfx : Option String)
    (hL : σ.listFails = false) (hR : σ.ledgerReadFails = false)
    (hW : σ.ledgerWriteFails = false) (b : Blob)
    (hb : b ∈ toReadOf σ file_type filePfx true) (hp : parsedOk file_type b = true) :
    (read_gcs_files_to_dataframes_aserta σ file_type filePfx true).store =
      { σ with ledger := some (pyJoin '\n' (files_already_read_of σ true ++
        (foldOf σ file_type filePfx true).2)) } := by
  have h2 : (true && σ.ledgerReadFails) = false := by rw [hR]; rfl
  have htrne : toReadOf σ file_type filePfx true ≠ [] := List.ne_nil_of_mem hb
  rw [read_gcs_eq_runCore σ file_type filePfx true hL h2,
    runCore_main σ file_type filePfx true htrne,
    if_neg (fst_ne_of_success σ file_type filePfx true b hb hp),
    if_pos ⟨rfl, List.ne_nil_of_mem (pend_mem_of_success σ file_type filePfx true b hb hp)⟩,
    if_neg (by rw [hW]; simp)]

/-- The names recorded in the ledger after such a run, for clean candidate
names: the previous names followed by the surviving pending names. -/
theorem run1_ledgerNames_of_success (σ : Store) (file_type : String)
    (filePfx : Option String)
    (hL : σ.listFails = false) (hR : σ.ledgerReadFails = false)
    (hW : σ.ledgerWriteFails = false)
    (hClean : ∀ b ∈ candidatesOf σ file_type filePfx, cleanName (trailingName b.name))
    (b : Blob) (hb : b ∈ toReadOf σ file_type filePfx true)
    (hp : parsedOk file_type b = true) :
    ledgerNamesOf (read_gcs_files_to_dataframes_aserta σ file_type filePfx true).store =
      files_already_read_of σ true ++ (foldOf σ file_type filePfx true).2 := by
  rw [run1_store_of_success σ file_type filePfx hL hR hW b hb hp]
  show parseLedger _ = _
  apply parseLedger_pyJoin
  · intro hnil
    rw [List.append_eq_nil] at hnil
    exact (List.ne_nil_of_mem (pend_mem_of_success σ file_type filePfx true b hb hp)) hnil.2
  · intro n hn
    rcases List.mem_append.mp hn with h | h
    · exact files_already_read_clean σ n h
    · have hsub : (foldOf σ file_type filePfx true).2 ⊆
          pend0Of σ file_type filePfx true := by
        rw [foldOf_snd]
        exact pendFold_subset file_type _ _
      have hn0 := hsub h
      rw [pend0Of, List.mem_map] at hn0
      obtain ⟨c, hc, hcn⟩ := hn0
      rw [← hcn]
      exact hClean c (toReadOf_subset_candidates σ file_type filePfx true hc)

/-- C4, counterexample to the claim as stated, in two instances whose
hypotheses (a fresh candidate, every file read parsing successfully, the
ledger write succeeding) all hold. First instance: the candidate's bytes
parse into a table with zero rows, so the first run returns an empty
dataframe. Second instance: the candidate's trailing name ` x.csv` carries a
leading space, which the ledger parser strips on re-reading, so the second
run re-reads the file, returns a non-empty dataframe and writes the ledger
again. -/
theorem c4_idempotence_counterexample :
    ((∃ b ∈ candidatesOf
        (⟨[⟨"a.csv", true, some []⟩], false, none, false, false⟩ : Store) ".csv" none,
        trailingName b.name ∉
          ledgerNamesOf (⟨[⟨"a.csv", true, some []⟩], false, none, false, false⟩ : Store))
      ∧ (∀ b ∈ toReadOf (⟨[⟨"a.csv", true, some []⟩], false, none, false, false⟩ : Store)
          ".csv" none true, parsedOk ".csv" b = true)
      ∧ (⟨[⟨"a.csv", true, some []⟩], false, none, false, false⟩ : Store).ledgerWriteFails
          = false
      ∧ (read_gcs_files_to_dataframes_aserta
          ⟨[⟨"a.csv", true, some []⟩], false, none, false, false⟩ ".csv" none true).df
          = [])
    ∧ ((∃ b ∈ candidatesOf
          (⟨[⟨" x.csv", true, some [1]⟩], false, none, false, false⟩ : Store) ".csv" none,
          trailingName b.name ∉ ledgerNamesOf
            (⟨[⟨" x.csv", true, some [1]⟩], false, none, false, false⟩ : Store))
        ∧ (∀ b ∈ toReadOf (⟨[⟨" x.csv", true, some [1]⟩], false, none, false, false⟩ : Store)
            ".csv" none true, parsedOk ".csv" b = true)
        ∧ (⟨[⟨" x.csv", true, some [1]⟩], false, none, false,
            false⟩ : Store).ledgerWriteFails = false
        ∧ (read_gcs_files_to_dataframes_aserta
            ⟨[⟨" x.csv", true, some [1]⟩], false, none, false, false⟩ ".csv" none true).df
            ≠ []
        ∧ (read_gcs_files_to_dataframes_aserta
            (read_gcs_files_to_dataframes_aserta
              ⟨[⟨" x.csv", true, some [1]⟩], false, none, false, false⟩ ".csv" none
              true).store ".csv" none true).df ≠ []
        ∧ (read_gcs_files_to_dataframes_aserta
            (read_gcs_files_to_dataframes_aserta
              ⟨[⟨" x.csv", true, some [1]⟩], false, none, false, false⟩ ".csv" none
              true).store ".csv" none true).ledgerWriteAttempted = true) := by decide

/-- C4, amended: under the additional hypotheses that candidate trailing
names are round-trip clean and that at least one file to read parses into at
least one row, a first run returns a non-empty dataframe, and an immediately
following second call against the stored result returns an empty dataframe,
skips every candidate, and performs no ledger write. -/
theorem c4_idempotence_amended (σ : Store) (file_type : String) (filePfx : Option String)
    (hL : σ.listFails = false) (hR : σ.ledgerReadFails = false)
    (hW : σ.ledgerWriteFails = false)
    (hClean : ∀ b ∈ candidatesOf σ file_type filePfx, cleanName (trailingName b.name))
    (hNew : ∃ b ∈ candidatesOf σ file_type filePfx,
        trailingName b.name ∉ ledgerNamesOf σ)
    (hAll : ∀ b ∈ toReadOf σ file_type filePfx true, parsedOk file_type b = true)
    (hRows : ∃ b ∈ toReadOf σ file_type filePfx true, b.parsed.getD [] ≠ []) :
    (read_gcs_files_to_dataframes_aserta σ file_type filePfx true).df ≠ []
      ∧ read_gcs_files_to_dataframes_aserta
          (read_gcs_files_to_dataframes_aserta σ file_type filePfx true).store
          file_type filePfx true =
        ⟨[], (read_gcs_files_to_dataframes_aserta σ file_type filePfx true).store,
          [], false⟩ := by
  have h2 : (true && σ.ledgerReadFails) = false := by rw [hR]; rfl
  obtain ⟨bn, hbn, hbnew⟩ := hNew
  have hbn_in : bn ∈ toReadOf σ file_type filePfx true :=
    mem_toReadOf_of_not_ledger σ file_type filePfx bn hbn
      (by rw [files_already_read_true_eq]; exact hbnew)
  have hp_bn := hAll bn hbn_in
  constructor
  · -- run 1 returns a non-empty dataframe
    rw [run_df_eq σ file_type filePfx true hL h2]
    obtain ⟨br, hbr, hrows⟩ := hRows
    intro hnil
    rw [List.flatten_eq_nil_iff] at hnil
    have hmem : ((br.parsed.getD []).map fun r => (r, trailingName br.name)) ∈
        (toReadOf σ file_type filePfx true).filterMap (taggedOf file_type) := by
      rw [List.mem_filterMap]
      exact ⟨br, hbr, taggedOf_of_parsedOk file_type br (hAll br hbr)⟩
    have := hnil _ hmem
    rw [List.map_eq_nil_iff] at this
    exact hrows this
  · -- run 2 skips everything and writes nothing
    rw [run1_store_of_success σ file_type filePfx hL hR hW bn hbn_in hp_bn]
    have hledger := run1_ledgerNames_of_success σ file_type filePfx hL hR hW hClean
      bn hbn_in hp_bn
    rw [run1_store_of_success σ file_type filePfx hL hR hW bn hbn_in hp_bn] at hledger
    have htr2 : toReadOf
        { σ with ledger := some (pyJoin '\n' (files_already_read_of σ true ++
          (foldOf σ file_type filePfx true).2)) } file_type filePfx true = [] := by
      unfold toReadOf files_to_read
      rw [List.filter_eq_nil_iff]
      intro c hc
      have hc' : c ∈ candidatesOf σ file_type filePfx := hc
      have hcmem : trailingName c.name ∈ files_already_read_of
          { σ with ledger := some (pyJoin '\n' (files_already_read_of σ true ++
            (foldOf σ file_type filePfx true).2)) } true := by
        rw [files_already_read_true_eq, hledger]
        by_cases hcase : trailingName c.name ∈ files_already_read_of σ true
        · exact List.mem_append.mpr (Or.inl hcase)
        · have hcin : c ∈ toReadOf σ file_type filePfx true :=
            mem_toReadOf_of_not_ledger σ file_type filePfx c hc' hcase
          exact List.mem_append.mpr (Or.inr
            (pend_mem_of_success σ file_type filePfx true c hcin (hAll c hcin)))
      simp [List.contains, List.elem_eq_mem, hcmem]
    have hrun2 := read_gcs_eq_runCore
      { σ with ledger := some (pyJoin '\n' (files_already_read_of σ true ++
        (foldOf σ file_type filePfx true).2)) } file_type filePfx true hL h2
    rw [hrun2]
    exact runCore_toRead_nil _ file_type filePfx true htr2

/-- Witness for the amended C4: one fresh one-row file; the first run yields
a row and the second run is empty with no write. -/
theorem c4_idempotence_amended_witness :
    (read_gcs_files_to_dataframes_aserta
        ⟨[⟨"a.csv", true, some [7]⟩], false, none, false, false⟩ ".csv" none true).df ≠ []
      ∧ read_gcs_files_to_dataframes_aserta
          (read_gcs_files_to_dataframes_aserta
            ⟨[⟨"a.csv", true, some [7]⟩], false, none, false, false⟩ ".csv" none true).store
          ".csv" none true =
        ⟨[], (read_gcs_files_to_dataframes_aserta
            ⟨[⟨"a.csv", true, some [7]⟩], false, none, false, false⟩ ".csv" none true).store,
          [], false⟩ :=
  c4_idempotence_amended _ _ _ rfl rfl rfl (by decide) (by decide) (by decide) (by decide)

/-- C10, counterexample to the claim as stated: two candidate blobs under
different sub-paths share the trailing name ` x.csv` (with a leading space).
Both are processed and parsed in a first run, yet on the run against the
resulting store the first blob is again in `files_to_read` — the stripped
ledger entry `x.csv` does not match the trailing name, so the blobs are not
skipped on the subsequent run. -/
theorem c10_trailing_keying_counterexample :
    (⟨"p/ x.csv", true, some [1]⟩ : Blob) ∈ toReadOf
        ⟨[⟨"p/ x.csv", true, some [1]⟩, ⟨"q/ x.csv", true, some [2]⟩], false, none,
          false, false⟩ ".csv" none true
      ∧ parsedOk ".csv" (⟨"p/ x.csv", true, some [1]⟩ : Blob) = true
      ∧ (⟨"p/ x.csv", true, some [1]⟩ : Blob) ∈ toReadOf
          (read_gcs_files_to_dataframes_aserta
            ⟨[⟨"p/ x.csv", true, some [1]⟩, ⟨"q/ x.csv", true, some [2]⟩], false, none,
              false, false⟩ ".csv" none true).store ".csv" none true := by decide

/-- C10, amended: ledger membership, the pending-update list and failure
removal key on the trailing path segment only: two candidates sharing a
trailing name are both skipped when a single ledger entry holds that name;
and, for round-trip clean candidate names, once either of the two is
successfully processed in a run whose setup and ledger write succeed, both
are skipped on the following run. -/
theorem c10_trailing_keying_amended (σ : Store) (file_type : String)
    (filePfx : Option String) (b1 b2 : Blob)
    (hc1 : b1 ∈ candidatesOf σ file_type filePfx)
    (hc2 : b2 ∈ candidatesOf σ file_type filePfx)
    (hsame : trailingName b2.name = trailingName b1.name) :
    (trailingName b1.name ∈ ledgerNamesOf σ →
        b1 ∉ toReadOf σ file_type filePfx true ∧ b2 ∉ toReadOf σ file_type filePfx true)
      ∧ (σ.listFails = false → σ.ledgerReadFails = false → σ.ledgerWriteFails = false →
          (∀ b ∈ candidatesOf σ file_type filePfx, cleanName (trailingName b.name)) →
          b1 ∈ toReadOf σ file_type filePfx true → parsedOk file_type b1 = true →
          b1 ∉ toReadOf (read_gcs_files_to_dataframes_aserta σ file_type filePfx
              true).store file_type filePfx true
            ∧ b2 ∉ toReadOf (read_gcs_files_to_dataframes_aserta σ file_type filePfx
                true).store file_type filePfx true) := by
  constructor
  · intro hmem
    have h1 := not_mem_toReadOf_of_ledger σ file_type filePfx b1
      (by rw [files_already_read_true_eq]; exact hmem)
    have h2 := not_mem_toReadOf_of_ledger σ file_type filePfx b2
      (by rw [files_already_read_true_eq, hsame]; exact hmem)
    exact ⟨h1, h2⟩
  · intro hL hR hW hClean hb1 hp1
    have hledger := run1_ledgerNames_of_success σ file_type filePfx hL hR hW hClean
      b1 hb1 hp1
    have hmem1 : trailingName b1.name ∈
        ledgerNamesOf (read_gcs_files_to_dataframes_aserta σ file_type filePfx
          true).store := by
      rw [hledger]
      exact List.mem_append.mpr (Or.inr
        (pend_mem_of_success σ file_type filePfx true b1 hb1 hp1))
    have h1 := not_mem_toReadOf_of_ledger
      (read_gcs_files_to_dataframes_aserta σ file_type filePfx true).store
      file_type filePfx b1 (by rw [files_already_read_true_eq]; exact hmem1)
    have h2 := not_mem_toReadOf_of_ledger
      (read_gcs_files_to_dataframes_aserta σ file_type filePfx true).store
      file_type filePfx b2
      (by rw [files_already_read_true_eq, hsame]; exact hmem1)
    exact ⟨h1, h2⟩

/-- Concrete store for part 1 of the amended C10 witness: two same-named
blobs under different sub-paths, ledger already holding the shared trailing
name. -/
def c10Store : Store :=
  ⟨[⟨"p/x.csv", true, some [1]⟩, ⟨"q/x.csv", true, some [2]⟩], false,
    some "x.csv", false, false⟩

/-- Concrete store for part 2 of the amended C10 witness: the same two
same-named blobs, no ledger object yet. -/
def c10StoreFresh : Store :=
  ⟨[⟨"p/x.csv", true, some [1]⟩, ⟨"q/x.csv", true, some [2]⟩], false,
    none, false, false⟩

/-- First blob of the C10 witness stores. -/
def c10b1 : Blob := ⟨"p/x.csv", true, some [1]⟩

/-- Second blob of the C10 witness stores. -/
def c10b2 : Blob := ⟨"q/x.csv", true, some [2]⟩

/-- Witness for the amended C10, exercising both parts non-vacuously: with a
ledger entry `x.csv`, both blobs are skipped; and after a run on the fresh
store processes both blobs successfully, both are skipped on the next run. -/
theorem c10_trailing_keying_amended_witness :
    (c10b1 ∉ toReadOf c10Store ".csv" none true
        ∧ c10b2 ∉ toReadOf c10Store ".csv" none true)
      ∧ (c10b1 ∉ toReadOf (read_gcs_files_to_dataframes_aserta c10StoreFresh ".csv" none
            true).store ".csv" none true
          ∧ c10b2 ∉ toReadOf (read_gcs_files_to_dataframes_aserta c10StoreFresh ".csv"
              none true).store ".csv" none true) :=
  ⟨(c10_trailing_keying_amended c10Store ".csv" none c10b1 c10b2 (by decide) (by decide)
      (by decide)).1 (by decide),
   (c10_trailing_keying_amended c10StoreFresh ".csv" none c10b1 c10b2 (by decide)
      (by decide) (by decide)).2 rfl rfl rfl (by decide) (by decide) (by decide)⟩

/-- Candidate file A of the C3 scenario: parses into the rows `ra`. -/
def c3A (ra : List Row) : Blob := ⟨"pre/a.csv", true, some ra⟩

/-- Candidate file B of the C3 scenario: its download or parse fails. -/
def c3B (bD : Bool) (bP : Option (List Row)) : Blob := ⟨"pre/b.csv", bD, bP⟩

/-- Candidate file C of the C3 scenario: parses into the rows `rc`. -/
def c3C (rc : List Row) : Blob := ⟨"pre/c.csv", true, some rc⟩

/-- The C3 store: three candidate files, no ledger object yet, no
collaborator failures. -/
def c3Store (ra rc : List Row) (bD : Bool) (bP : Option (List Row)) : Store :=
  ⟨[c3A ra, c3B bD bP, c3C rc], false, none, false, false⟩

/-- C3: partial-failure isolation: over three candidate files where A and C
parse successfully and B's download or parse raises, the returned dataframe
is exactly A's rows tagged `a.csv` followed by C's rows tagged `c.csv`, and
the ledger written at the end contains A's and C's names but not B's. -/
theorem c3_failure_isolation (ra rc : List Row) (bD : Bool)
    (bP : Option (List Row)) (hB : bD = false ∨ bP = none) :
    (read_gcs_files_to_dataframes_aserta (c3Store ra rc bD bP) ".csv" none true).df
        = ra.map (fun r => (r, "a.csv")) ++ rc.map (fun r => (r, "c.csv"))
      ∧ ledgerNamesOf
          (read_gcs_files_to_dataframes_aserta (c3Store ra rc bD bP) ".csv" none true).store
        = ["a.csv", "c.csv"] := by
  have hdf : ∀ (bD' : Bool) (bP' : Option (List Row)),
      taggedOf ".csv" (c3B bD' bP') = none →
      (read_gcs_files_to_dataframes_aserta (c3Store ra rc bD' bP') ".csv" none true).df
        = ra.map (fun r => (r, "a.csv")) ++ rc.map (fun r => (r, "c.csv")) := by
    intro bD' bP' htB
    rw [run_df_eq (c3Store ra rc bD' bP') ".csv" none true rfl rfl]
    have htr : toReadOf (c3Store ra rc bD' bP') ".csv" none true
        = [c3A ra, c3B bD' bP', c3C rc] := rfl
    rw [htr]
    simp only [List.filterMap_cons, List.filterMap_nil, htB,
      show taggedOf ".csv" (c3A ra) = some (ra.map fun r => (r, "a.csv")) from rfl,
      show taggedOf ".csv" (c3C rc) = some (rc.map fun r => (r, "c.csv")) from rfl]
    simp
  have hled : ∀ (bD' : Bool) (bP' : Option (List Row)),
      (foldOf (c3Store ra rc bD' bP') ".csv" none true).2 = ["a.csv", "c.csv"] →
      ledgerNamesOf
          (read_gcs_files_to_dataframes_aserta (c3Store ra rc bD' bP') ".csv" none
            true).store
        = ["a.csv", "c.csv"] := by
    intro bD' bP' hpend
    have hstore := run1_store_of_success (c3Store ra rc bD' bP') ".csv" none rfl rfl rfl
      (c3A ra) (List.mem_cons_self _ _) rfl
    rw [hstore, hpend]
    rfl
  rcases hB with h | h
  · subst h
    exact ⟨hdf false bP rfl, hled false bP rfl⟩
  · subst h
    cases bD with
    | false => exact ⟨hdf false none rfl, hled false none rfl⟩
    | true => exact ⟨hdf true none rfl, hled true none rfl⟩

/-- Witness for C3: concrete rows, B's parse raising. -/
theorem c3_failure_isolation_witness :
    (read_gcs_files_to_dataframes_aserta (c3Store [1, 2] [5] true none) ".csv" none
        true).df
        = ([1, 2] : List Row).map (fun r => (r, "a.csv"))
            ++ ([5] : List Row).map (fun r => (r, "c.csv"))
      ∧ ledgerNamesOf
          (read_gcs_files_to_dataframes_aserta (c3Store [1, 2] [5] true none) ".csv" none
            true).store
        = ["a.csv", "c.csv"] :=
  c3_failure_isolation [1, 2] [5] true none (Or.inr rfl)
